import Mathlib

/-!
Verification of the xAOD dumper core (scripts/dumpSG.py): the name
classifier and hierarchy builder (`inspect_tree`), the container filter
(`filter_xAOD_objects`), the size aggregator (`update_sizes`) and the
ordering performed by the pretty report emitter (`dump_pretty`).

Strings are modelled as `List Char` (the Python 2 source works on byte
strings; all inputs of interest are ASCII and contain no newline, so the
regex anchors `^`/`$` coincide with begin/end of string and `.` matches
every character).  Python dictionaries are modelled as association lists
in insertion order; `defaultdict` access is `getRec` below.  Fallible
code (regex-compile errors, attribute errors on `None`) is modelled with
`Option`: `none` is an uncaught Python exception.
-/

namespace DumpSG

/-- One ROOT leaf as consumed by `inspect_tree`: branch name, raw declared
type string (`GetTypeName`), and the two byte counters
(`GetTotalSize`, `GetZipBytes`). -/
structure Leaf where
  name : List Char
  type : List Char
  totbytes : Nat
  filebytes : Nat
deriving DecidableEq

/-- One entry of a container's `prop`/`attr` list, exactly the dict
`{'name': ..., 'type': ..., 'rootname': ..., 'totbytes': ..., 'filebytes': ...}`
built in `inspect_tree`. -/
structure Field where
  name : List Char
  type : List Char
  rootname : List Char
  totbytes : Nat
  filebytes : Nat
deriving DecidableEq

/-- One value of the `xAOD_Objects` dictionary.  `type`/`rootname` are
`Option` because the Python default is `None`.  The filter drops the
`prop`/`attr` keys when the corresponding flag is off; since every later
reader uses `.get('prop', [])` (or is guarded by the same flag), a dropped
key is observationally the empty list and is modelled as `[]`. -/
structure Record where
  prop : List Field
  attr : List Field
  type : Option (List Char)
  has_aux : Bool
  rootname : Option (List Char)
  totbytes : Nat
  filebytes : Nat
deriving DecidableEq

/-- The defaultdict default:
`{'prop': [], 'attr': [], 'type': None, 'has_aux': False, 'rootname': None, 'totbytes': 0, 'filebytes': 0}`. -/
def defaultRecord : Record :=
  { prop := [], attr := [], type := none, has_aux := false,
    rootname := none, totbytes := 0, filebytes := 0 }

/-- The `xAOD_Objects` dictionary: container name to record, kept in
insertion order. -/
abbrev Hierarchy : Type := List (List Char × Record)

/-- Dictionary lookup (no default). -/
def lookupRec : Hierarchy → List Char → Option Record
  | [], _ => none
  | (k, v) :: t, c => if k = c then some v else lookupRec t c

/-- A `defaultdict` read: the stored record, or the default. -/
def getRec (h : Hierarchy) (c : List Char) : Record :=
  (lookupRec h c).getD defaultRecord

/-- Dictionary write: replace in place, or append a new key at the end
(insertion order). -/
def setRec : Hierarchy → List Char → Record → Hierarchy
  | [], c, r => [(c, r)]
  | (k, v) :: t, c, r => if k = c then (c, r) :: t else (k, v) :: setRec t c r

/-! ## The four name regexes of `inspect_tree`

`xAOD_AuxContainer_Name = re.compile('(.*)Aux\\.$')` — searched, so (on
newline-free strings) it matches iff the name ends with `"Aux."`, the
greedy group being everything before that final suffix. -/

/-- Match of `(.*)Aux\.$` (searched): `some container` iff
`name = container ++ "Aux."`. -/
def auxSplit (name : List Char) : Option (List Char) :=
  if 4 ≤ name.length ∧ name.drop (name.length - 4) = "Aux.".data then
    some (name.take (name.length - 4))
  else none

/-- Match of `(.*)Aux\.([^:]+)$` (searched).  A match is a split
`name = p ++ "Aux." ++ f` with `f` nonempty and colon-free; the greedy
leading group makes `p` the longest such prefix.  Recursion prefers the
split found deeper in the list, i.e. the longer `p`. -/
def propSplit : List Char → Option (List Char × List Char)
  | [] => none
  | c :: rest =>
    match propSplit rest with
    | some (p, f) => some (c :: p, f)
    | none =>
      let s := c :: rest
      let f := s.drop 4
      if s.take 4 = "Aux.".data ∧ f ≠ [] ∧ ':' ∉ f then some ([], f) else none

/-- Match of `(.*)AuxDyn\.([^:]+)$` (searched), as `propSplit` but with
the 7-character separator `"AuxDyn."`. -/
def attrSplit : List Char → Option (List Char × List Char)
  | [] => none
  | c :: rest =>
    match attrSplit rest with
    | some (p, f) => some (c :: p, f)
    | none =>
      let s := c :: rest
      let f := s.drop 7
      if s.take 7 = "AuxDyn.".data ∧ f ≠ [] ∧ ':' ∉ f then some ([], f) else none

/-- Match of `^([^:]*)(?<!\.)$`: the whole name is colon-free and does not
end with a literal dot; the group is the whole name.  The empty name
matches (the lookbehind has nothing to inspect). -/
def contNameMatch (name : List Char) : Option (List Char) :=
  if ':' ∉ name ∧ name.getLast? ≠ some '.' then some name else none

/-- Result of trying the four name patterns in the order of the
`if`/`elif` chain of `inspect_tree` (aux root, then property, then
attribute, then bare container root; no match is silently skipped). -/
inductive Classified where
  | auxRoot (container : List Char)
  | prop (container field : List Char)
  | attr (container field : List Char)
  | contRoot (container : List Char)
  | skip
deriving DecidableEq

/-- The `if m_aux_name / elif m_cont_prop / elif m_cont_attr / elif m_cont_name`
chain: first match wins. -/
def classifyName (name : List Char) : Classified :=
  match auxSplit name with
  | some c => .auxRoot c
  | none =>
    match propSplit name with
    | some (c, f) => .prop c f
    | none =>
      match attrSplit name with
      | some (c, f) => .attr c f
      | none =>
        match contNameMatch name with
        | some c => .contRoot c
        | none => .skip

/-! ## Type normalization

`xAOD_Type_Name = re.compile('^(vector<)?(.+?)(?(1)(?: ?>))$')`, then
`.replace('Aux','')`, then `re.sub('_v\\d+', '', ...)`. -/

/-- Inner part of the `vector<...>` form: after the prefix `vector<`, the
lazy group is the shortest nonempty prefix whose remainder is exactly
`" >"` or `">"` (one optional space, then the closing bracket, then end
of string).  Lazy matching prefers the shorter group, i.e. dropping the
two-character tail when possible. -/
def vectorInner (r : List Char) : Option (List Char) :=
  if " >".data.isSuffixOf r ∧ 3 ≤ r.length then some (r.take (r.length - 2))
  else if ">".data.isSuffixOf r ∧ 2 ≤ r.length then some (r.take (r.length - 1))
  else none

/-- Group 2 of `xAOD_Type_Name` searched on the declared type: `none` only
for the empty string (then `.groups()` is called on `None` — an uncaught
`AttributeError`, i.e. a fatal error).  If the string starts with
`vector<` and the bracketed form closes, the group is the inner type;
otherwise the optional group backtracks to non-participating and the lazy
group is the whole string. -/
def typeName (s : List Char) : Option (List Char) :=
  if s = [] then none
  else if s.take 7 = "vector<".data then
    match vectorInner (s.drop 7) with
    | some m => some m
    | none => some s
  else some s

/-- Python `str.replace('Aux', '')`: delete every non-overlapping
occurrence of `Aux`, scanning left to right. -/
def removeAux : List Char → List Char
  | 'A' :: 'u' :: 'x' :: rest => removeAux rest
  | c :: rest => c :: removeAux rest
  | [] => []

/-- Python `str.replace('Link', '')`, as `removeAux`. -/
def removeLink : List Char → List Char
  | 'L' :: 'i' :: 'n' :: 'k' :: rest => removeLink rest
  | c :: rest => c :: removeLink rest
  | [] => []

/-- State of the left-to-right scanner for `re.sub('_v\\d+', '', s)`:
either no partial match is pending, a lone `'_'` is pending, `"_v"` is
pending, or we are inside the digit run of a confirmed match (being
deleted).  A pending prefix is flushed verbatim as soon as the match
fails; a failed match resumes scanning at the character after the
position where the attempt started, which the state transitions below
reproduce (a match can only start at `'_'`). -/
inductive RVState where
  | norm
  | sawU
  | sawUV
  | dig

/-- Scanner for `re.sub('_v\\d+', '', s)` (see `RVState`). -/
def rvRun : RVState → List Char → List Char
  | .norm, [] => []
  | .sawU, [] => ['_']
  | .sawUV, [] => ['_', 'v']
  | .dig, [] => []
  | .norm, c :: rest =>
      if c = '_' then rvRun .sawU rest else c :: rvRun .norm rest
  | .sawU, c :: rest =>
      if c = 'v' then rvRun .sawUV rest
      else if c = '_' then '_' :: rvRun .sawU rest
      else '_' :: c :: rvRun .norm rest
  | .sawUV, c :: rest =>
      if c.isDigit then rvRun .dig rest
      else if c = '_' then '_' :: 'v' :: rvRun .sawU rest
      else '_' :: 'v' :: c :: rvRun .norm rest
  | .dig, c :: rest =>
      if c.isDigit then rvRun .dig rest
      else if c = '_' then rvRun .sawU rest
      else c :: rvRun .norm rest

/-- Model of `re.sub('_v\\d+', '', s)`: remove every version suffix
`_v<digits>`. -/
def removeVersion (l : List Char) : List Char := rvRun .norm l

/-- The whole normalization applied to every leaf type in `inspect_tree`:
`xAOD_remove_version.sub('', xAOD_Type_Name.search(elType).groups()[1].replace('Aux',''))`,
`none` when the type regex fails (empty declared type — fatal). -/
def normalizeType (s : List Char) : Option (List Char) :=
  (typeName s).map (fun g2 => removeVersion (removeAux g2))

/-! ## The b-tagging special case -/

/-- Python `needle in hay`: contiguous substring test. -/
def containsSub (needle : List Char) : List Char → Bool
  | [] => needle.isEmpty
  | c :: rest => needle.isPrefixOf (c :: rest) || containsSub needle rest

/-- ASCII lower-casing, Python `str.lower()`. -/
def toLowerL (l : List Char) : List Char := l.map Char.toLower

/-- Match of `xAOD_Grab_Inner_Type = re.compile('<([^<>]*)>')` searched:
the leftmost `<` that is followed by a (possibly empty) run of non-angle
characters and then `>`; the group is that run. -/
def grabInner : List Char → Option (List Char)
  | [] => none
  | c :: rest =>
    if c = '<' then
      if (rest.dropWhile (fun d => !(d = '<' || d = '>'))).head? = some '>' then
        some (rest.takeWhile (fun d => !(d = '<' || d = '>')))
      else grabInner rest
    else grabInner rest

/-- The reported type of a b-tagging attribute: the inner type of one
angle-bracket level of the (already normalized) element type with a
literal `" *"` appended, or the normalized type unchanged when the
extraction finds nothing. -/
def btaggingReportedType (elType : List Char) : List Char :=
  match grabInner elType with
  | some inner => inner ++ " *".data
  | none => elType

/-! ## The hierarchy builder -/

/-- Python `x or y` for `x` a string-or-`None` (used for
`xAOD_Objects[container]['type'] = xAOD_Objects[container]['type'] or elType`):
keeps `x` unless it is `None` or the empty string (both falsy). -/
def pyOr (cur : Option (List Char)) (new : List Char) : Option (List Char) :=
  match cur with
  | some t => if t = [] then some new else some t
  | none => some new

/-- The body of the per-leaf loop of `inspect_tree`: normalize the type
(fatal on failure), classify the name, update the dictionary.  Mirrors
the four branches of the source; an unmatched name leaves the dictionary
untouched. -/
def processLeaf (h : Hierarchy) (l : Leaf) : Option Hierarchy :=
  match normalizeType l.type with
  | none => none
  | some elType =>
    match classifyName l.name with
    | .auxRoot container =>
        let r := getRec h container
        some (setRec h container
          { r with type := some elType, has_aux := true, rootname := some l.name,
                   totbytes := r.totbytes + l.totbytes,
                   filebytes := r.filebytes + l.filebytes })
    | .prop container field =>
        let r := getRec h container
        some (setRec h container
          { r with prop := r.prop ++
              [{ name := field, type := elType, rootname := l.name,
                 totbytes := l.totbytes, filebytes := l.filebytes }] })
    | .attr container field =>
        let r := getRec h container
        if containsSub "btagging".data (toLowerL field) then
          some (setRec h container
            { r with prop := r.prop ++
                [{ name := removeLink field, type := btaggingReportedType elType,
                   rootname := l.name, totbytes := l.totbytes, filebytes := l.filebytes }] })
        else
          some (setRec h container
            { r with attr := r.attr ++
                [{ name := field, type := elType, rootname := l.name,
                   totbytes := l.totbytes, filebytes := l.filebytes }] })
    | .contRoot container =>
        let r := getRec h container
        some (setRec h container
          { r with type := pyOr r.type elType, rootname := pyOr r.rootname l.name,
                   totbytes := r.totbytes + l.totbytes,
                   filebytes := r.filebytes + l.filebytes })
    | .skip => some h

/-- Model of `inspect_tree`: fold the leaf sequence into the hierarchy, starting
from the empty dictionary; any fatal per-leaf error aborts the pass. -/
def inspect_tree (leaves : List Leaf) : Option Hierarchy :=
  List.foldlM processLeaf [] leaves

/-! ## Shell-glob matching (`fnmatch.translate` + `re.match`)

`filter_xAOD_objects` compiles `fnmatch.translate(glob)` and uses
`.match` on it.  The translated regex is anchored (`re.match` at the
start, `\Z` at the end) and in DOTALL mode.  We tokenize the glob with
the exact scan of `fnmatch.translate` and match tokens directly.
`re.compile` rejects a character class containing a decreasing range
(`sre` "bad character range"), which `tokenizeGlob` models by returning
`none`. -/

/-- A compiled glob element: `*` (`.*`), `?` (`.`), a literal character,
or a character class with optional negation. -/
inductive Token where
  | star
  | qmark
  | lit (c : Char)
  | cls (neg : Bool) (body : List Char)
deriving DecidableEq

/-- Membership of a character in a class body, with `sre` range semantics:
`a-b` between two characters is a range, otherwise characters are
literal (`fnmatch.translate` doubles backslashes and escapes a leading
`^`, so every body character stands for itself). -/
def inClassBody : List Char → Char → Bool
  | a :: '-' :: b :: rest, c => (a ≤ c && c ≤ b) || inClassBody rest c
  | a :: rest, c => (a = c) || inClassBody rest c
  | [], _ => false

/-- Validation performed by `re.compile`: every range `a-b` of a class
must have `a ≤ b`, otherwise compiling raises "bad character range". -/
def classBodyOk : List Char → Bool
  | a :: '-' :: b :: rest => (a ≤ b) && classBodyOk rest
  | _ :: rest => classBodyOk rest
  | [] => true

/-- Scan of `fnmatch.translate` after `[` and an optional `!`: the
closing `]` is searched starting after an immediately following `]`
(which would belong to the body). -/
def hasCloseBody : List Char → Bool
  | ']' :: rest => rest.contains ']'
  | l => l.contains ']'

/-- Whether the `[` just consumed has a closing `]` under the scan rules
of `fnmatch.translate` (an optional leading `!`, then `hasCloseBody`);
without one the `[` is a literal. -/
def hasClose : List Char → Bool
  | '!' :: rest => hasCloseBody rest
  | l => hasCloseBody l

/-- Tokenizer state: outside any class; just after `[` (closure already
checked); after `[`+optional `!` with the first body position pending
(where a `]` is still a body character); or inside a class body with the
accumulated characters. -/
inductive TokState where
  | plain
  | clsOpen
  | clsFirst (neg : Bool)
  | clsBody (neg : Bool) (acc : List Char)

/-- The character loop of `fnmatch.translate`, fused with the range
validation of `re.compile` (see `Token`).  The `[]`-state cases on the
empty list are unreachable because `clsOpen` is only entered when
`hasClose` found a closing bracket. -/
def tokGo : TokState → List Char → Option (List Token)
  | .plain, [] => some []
  | .plain, c :: p =>
      if c = '*' then (tokGo .plain p).map (.star :: ·)
      else if c = '?' then (tokGo .plain p).map (.qmark :: ·)
      else if c = '[' then
        if hasClose p then tokGo .clsOpen p
        else (tokGo .plain p).map (.lit '[' :: ·)
      else (tokGo .plain p).map (.lit c :: ·)
  | .clsOpen, [] => none
  | .clsOpen, c :: p =>
      if c = '!' then tokGo (.clsFirst true) p
      else if c = ']' then tokGo (.clsBody false [']']) p
      else tokGo (.clsBody false [c]) p
  | .clsFirst _, [] => none
  | .clsFirst neg, c :: p =>
      if c = ']' then tokGo (.clsBody neg [']']) p
      else tokGo (.clsBody neg [c]) p
  | .clsBody _ _, [] => none
  | .clsBody neg acc, c :: p =>
      if c = ']' then
        if classBodyOk acc then (tokGo .plain p).map (.cls neg acc :: ·)
        else none
      else tokGo (.clsBody neg (acc ++ [c])) p

/-- Model of `re.compile(fnmatch.translate(pat))`: `none` is a compile error. -/
def tokenizeGlob (pat : List Char) : Option (List Token) :=
  tokGo .plain pat

/-- Anchored matching of a token list against a string: `*` matches any
(possibly empty) stretch — in DOTALL mode, any character at all — and
the final `\Z` forces the whole string to be consumed. -/
def tokMatch : List Token → List Char → Bool
  | [], s => s.isEmpty
  | .star :: p, s => s.tails.any (fun t => tokMatch p t)
  | .qmark :: p, s => match s with | [] => false | _ :: s' => tokMatch p s'
  | .lit c :: p, s => match s with | [] => false | d :: s' => (c = d) && tokMatch p s'
  | .cls neg body :: p, s =>
      match s with
      | [] => false
      | d :: s' => (neg != inClassBody body d) && tokMatch p s'

/-! ## The filter (`filter_xAOD_objects`) -/

/-- The configuration consumed by the filter and the report emitter:
`--container`, `--type`, `--has_aux`, `--prop`, `--attr`. -/
structure Args where
  container_name_regex : List Char
  container_type_regex : List Char
  has_aux : Bool
  list_properties : Bool
  list_attributes : Bool
deriving DecidableEq

/-- The per-record dictionary comprehension of the filter: the `prop`
(resp. `attr`) key survives only under `--prop` (resp. `--attr`); every
other key is kept.  A dropped key is modelled as `[]` (see `Record`). -/
def projRecord (args : Args) (v : Record) : Record :=
  { v with prop := if args.list_properties then v.prop else [],
           attr := if args.list_attributes then v.attr else [] }

/-- The outer dictionary comprehension of `filter_xAOD_objects` with the
patterns already compiled.  The conditions short-circuit exactly as in
`p_container_name.match(k) and p_container_type.match(v['type']) and (not args.has_aux or v['has_aux'])`;
when the name matches and `v['type']` is `None`, `.match(None)` raises a
`TypeError` (`none`). -/
def filterGo (pn pt : List Token) (args : Args) : Hierarchy → Option Hierarchy
  | [] => some []
  | (k, v) :: t =>
    if tokMatch pn k then
      match v.type with
      | none => none
      | some ty =>
        if tokMatch pt ty && (!args.has_aux || v.has_aux) then
          (filterGo pn pt args t).map (fun rest => (k, projRecord args v) :: rest)
        else filterGo pn pt args t
    else filterGo pn pt args t

/-- Model of `filter_xAOD_objects`: compile both globs, then filter and
project. -/
def filter_xAOD_objects (xAOD_Objects : Hierarchy) (args : Args) : Option Hierarchy :=
  match tokenizeGlob args.container_name_regex, tokenizeGlob args.container_type_regex with
  | some pn, some pt => filterGo pn pt args xAOD_Objects
  | _, _ => none

/-! ## The size aggregator (`update_sizes`) -/

/-- The per-container body of `update_sizes`:
`Elements['totbytes'] += reduce(lambda a, d: a + d.get('totbytes', 0), Elements.get('prop', []) + Elements.get('attr', []), 0)`
and the same for `filebytes`.  The in-place mutation is modelled by
returning the updated record. -/
def update_record (E : Record) : Record :=
  { E with
    totbytes := E.totbytes + (E.prop ++ E.attr).foldl (fun a d => a + d.totbytes) 0,
    filebytes := E.filebytes + (E.prop ++ E.attr).foldl (fun a d => a + d.filebytes) 0 }

/-- Model of `update_sizes`: roll every retained field's bytes up into its
container's accumulators (state-passing version of the in-place loop). -/
def update_sizes (h : Hierarchy) : Hierarchy :=
  h.map (fun kv => (kv.1, update_record kv.2))

/-! ## Ordering of the pretty report (`dump_pretty`)

The emitter writes containers in the order of
`sorted(xAOD_Objects.items(), key=lambda (k, v): (v['type'].lower(), k.lower()))`
and, inside each container, properties and attributes in the order of
`sorted(..., key=lambda k: k['name'].lower())` (each only under its
flag).  We model the emission order; the surrounding literal text is a
presentation detail.  Python's `sorted` is a stable ascending sort by
the key tuple, modelled by `List.insertionSort` with the non-strict key
comparison (a stable sort, hence the same output list). -/

/-- Python tuple comparison `(a1, a2) <= (b1, b2)` for pairs of strings
(lexicographic on character values, shorter prefix first). -/
def pairLe (x y : List Char × List Char) : Prop :=
  x.1 < y.1 ∨ (x.1 = y.1 ∧ x.2 ≤ y.2)

instance : DecidableRel pairLe := fun x y => by unfold pairLe; infer_instance

/-- A container item decorated with its sort key
`(v['type'].lower(), k.lower())`. -/
structure Keyed where
  key : List Char × List Char
  kname : List Char
  ktype : List Char
  krec : Record
deriving DecidableEq

/-- Comparison of keyed container items by their key tuples. -/
def contRel (a b : Keyed) : Prop := pairLe a.key b.key

instance : DecidableRel contRel := fun a b => by unfold contRel; infer_instance

/-- Comparison used for the per-container field sort:
`key=lambda k: k['name'].lower()`. -/
def fieldRel (a b : Field) : Prop := toLowerL a.name ≤ toLowerL b.name

instance : DecidableRel fieldRel := fun a b => by unfold fieldRel; infer_instance

/-- Key computation of the container sort: `v['type'].lower()` raises an
`AttributeError` when the type is `None` (`none`). -/
def keyedOf : Hierarchy → Option (List Keyed)
  | [] => some []
  | (k, v) :: t =>
    match v.type with
    | none => none
    | some ty =>
      (keyedOf t).map (fun rest => ⟨(toLowerL ty, toLowerL k), k, ty, v⟩ :: rest)

/-- One emitted container of the pretty report: its name, its declared
type, and the field lists in emission order (empty when the
corresponding flag is off and the loop is not entered). -/
structure PrettyItem where
  pname : List Char
  ptype : List Char
  pprops : List Field
  pattrs : List Field
deriving DecidableEq

/-- The emission order of `dump_pretty`: containers sorted by
`(type.lower(), name.lower())`, fields of each container sorted by
`name.lower()` under their flags. -/
def dump_pretty (h : Hierarchy) (args : Args) : Option (List PrettyItem) :=
  match keyedOf h with
  | none => none
  | some keyed =>
    some ((keyed.insertionSort contRel).map (fun x =>
      { pname := x.kname, ptype := x.ktype,
        pprops := if args.list_properties then x.krec.prop.insertionSort fieldRel else [],
        pattrs := if args.list_attributes then x.krec.attr.insertionSort fieldRel else [] }))

example : tokenizeGlob "*".data = some [.star] := by decide
example : tokenizeGlob "xAOD::Jet*".data
    = some [.lit 'x', .lit 'A', .lit 'O', .lit 'D', .lit ':', .lit ':',
            .lit 'J', .lit 'e', .lit 't', .star] := by decide
example : tokenizeGlob "[a-c]x".data = some [.cls false ['a', '-', 'c'], .lit 'x'] := by decide
example : tokenizeGlob "[!a]".data = some [.cls true ['a']] := by decide
example : tokenizeGlob "[c-a]".data = none := by decide
example : tokenizeGlob "[ab".data
    = some [.lit '[', .lit 'a', .lit 'b'] := by decide
example : (tokenizeGlob "xAOD::*Jet*".data).map (fun p => tokMatch p "xAOD::TauJetContainer".data)
    = some true := by decide
example : (tokenizeGlob "xAOD::Jet*".data).map (fun p => tokMatch p "xAOD::TauJetContainer".data)
    = some false := by decide
example : (tokenizeGlob "[b-d]?g".data).map (fun p => tokMatch p "cog".data) = some true := by
  decide

example : classifyName "AntiKt10LCTopoAux.".data = .auxRoot "AntiKt10LCTopo".data := by decide
example : classifyName "AntiKt10LCTopoAux.pt".data = .prop "AntiKt10LCTopo".data "pt".data := by
  decide
example : classifyName "AntiKt10LCTopoAuxDyn.Tau1".data
    = .attr "AntiKt10LCTopo".data "Tau1".data := by decide
example : classifyName "AntiKt10LCTopo".data = .contRoot "AntiKt10LCTopo".data := by decide
example : classifyName "a:b".data = .skip := by decide
example : normalizeType "vector<float>".data = some "float".data := by decide
example : normalizeType "DataVector<xAOD::Jet_v1>".data
    = some "DataVector<xAOD::Jet>".data := by decide
example : normalizeType "vector<ElementLink<DataVector<xAOD::BTagging_v1> > >".data
    = some "ElementLink<DataVector<xAOD::BTagging> >".data := by decide

/-! ## Dictionary lemmas -/

lemma lookupRec_setRec_same (h : Hierarchy) (c : List Char) (r : Record) :
    lookupRec (setRec h c r) c = some r := by
  induction h with
  | nil => simp [setRec, lookupRec]
  | cons kv t ih =>
    obtain ⟨k, v⟩ := kv
    by_cases hk : k = c
    · subst hk; simp [setRec, lookupRec]
    · simp [setRec, lookupRec, hk, ih]

lemma lookupRec_setRec_ne (h : Hierarchy) (c c' : List Char) (r : Record)
    (hne : c' ≠ c) : lookupRec (setRec h c r) c' = lookupRec h c' := by
  induction h with
  | nil => simp [setRec, lookupRec, Ne.symm hne]
  | cons kv t ih =>
    obtain ⟨k, v⟩ := kv
    by_cases hk : k = c
    · subst hk
      simp [setRec, lookupRec, Ne.symm hne]
    · simp [setRec, lookupRec, hk, ih]

lemma getRec_setRec_same (h : Hierarchy) (c : List Char) (r : Record) :
    getRec (setRec h c r) c = r := by
  simp [getRec, lookupRec_setRec_same]

/-! ## The aux-root pattern (claim C1) -/

lemma auxSplit_eq_some_iff (name c : List Char) :
    auxSplit name = some c ↔ name = c ++ "Aux.".data := by
  constructor
  · intro h
    unfold auxSplit at h
    split at h
    · rename_i hcond
      obtain ⟨hlen, hdrop⟩ := hcond
      have htd := List.take_append_drop (name.length - 4) name
      injection h with h
      rw [h, hdrop] at htd
      exact htd.symm
    · exact Option.noConfusion h
  · intro h
    subst h
    have hlen : (c ++ "Aux.".data).length = c.length + 4 := by
      simp [List.length_append]
    have hsub : (c ++ "Aux.".data).length - 4 = c.length := by omega
    unfold auxSplit
    rw [if_pos]
    · rw [hsub, List.take_left]
    · refine ⟨by omega, ?_⟩
      rw [hsub, List.drop_left]

lemma classifyName_eq_auxRoot_iff (name c : List Char) :
    classifyName name = .auxRoot c ↔ auxSplit name = some c := by
  unfold classifyName
  cases haux : auxSplit name with
  | some c' => simp
  | none =>
    simp only []
    cases hp : propSplit name with
    | some cf => obtain ⟨c', f⟩ := cf; simp
    | none =>
      cases ha : attrSplit name with
      | some cf => obtain ⟨c', f⟩ := cf; simp
      | none =>
        cases hc : contNameMatch name with
        | some c' => simp
        | none => simp

/-- Claim C1, amended.  The classifier tags a leaf name as
`AuxRoot(container)` exactly when the name has the form
`<container>Aux.` — the greedy group captures everything before the
final `"Aux."`, and the container part MAY contain literal dots (the
no-dot restriction of the original claim is refuted by
`classify_auxroot_dot_C1_cex`).  The aux-root pattern is tried first, so
this holds even for names that also fit the property, attribute or bare
container-root patterns. -/
theorem classify_auxroot_iff_C1 (name c : List Char) :
    classifyName name = .auxRoot c ↔ name = c ++ "Aux.".data := by
  rw [classifyName_eq_auxRoot_iff, auxSplit_eq_some_iff]

/-- Claim C1, counterexample to the original wording: the name
`"A.BAux."` is classified `AuxRoot("A.B")` although the captured
container `"A.B"` contains a literal dot — `(.*)Aux\.$` puts no
restriction on dots in the group, so "container contains no literal dot"
is false. -/
theorem classify_auxroot_dot_C1_cex :
    classifyName "A.BAux.".data = .auxRoot "A.B".data ∧ '.' ∈ "A.B".data := by
  constructor
  · decide
  · decide

/-- Claim C1 witness: the amended iff applied at the concrete name
`"FooAux."`. -/
theorem classify_auxroot_iff_C1_witness :
    classifyName "FooAux.".data = .auxRoot "Foo".data :=
  (classify_auxroot_iff_C1 "FooAux.".data "Foo".data).mpr (by decide)

/-! ## Unmatched names are skipped (claim C9) -/

lemma normalizeType_of_ne_nil (s : List Char) (hs : s ≠ []) :
    ∃ g, normalizeType s = some g := by
  unfold normalizeType typeName
  rw [if_neg hs]
  by_cases h7 : s.take 7 = "vector<".data
  · rw [if_pos h7]
    cases hv : vectorInner (s.drop 7) with
    | some m => exact ⟨_, rfl⟩
    | none => exact ⟨_, rfl⟩
  · rw [if_neg h7]
    exact ⟨_, rfl⟩

/-- Claim C9.  A leaf (with the spec-mandated non-empty declared type)
whose name matches none of the four patterns — not the aux-root pattern,
not the property pattern, not the attribute pattern, not the bare
container-root pattern — is processed without error and leaves the
hierarchy completely unchanged. -/
theorem skip_unmatched_C9 (h : Hierarchy) (l : Leaf)
    (htype : l.type ≠ [])
    (h1 : auxSplit l.name = none) (h2 : propSplit l.name = none)
    (h3 : attrSplit l.name = none) (h4 : contNameMatch l.name = none) :
    processLeaf h l = some h := by
  obtain ⟨g, hg⟩ := normalizeType_of_ne_nil l.type htype
  have hcl : classifyName l.name = .skip := by
    unfold classifyName
    rw [h1, h2, h3, h4]
  unfold processLeaf
  rw [hg, hcl]

/-- Claim C9 witness: the colon in `"a:b"` defeats all four patterns, and
the leaf is dropped without touching the (empty) hierarchy. -/
theorem skip_unmatched_C9_witness :
    processLeaf [] { name := "a:b".data, type := "Int_t".data,
                     totbytes := 5, filebytes := 7 } = some [] :=
  skip_unmatched_C9 [] _ (by decide) (by decide) (by decide) (by decide) (by decide)

/-! ## The declared-type tie-break (claim C2) -/

/-- Claim C2, amended.  (a) Once a container's `type` holds a NONEMPTY
string — as set by an aux-root leaf — a bare container-root leaf never
changes it.  (b) A container-root leaf fills the type in whenever it is
unset (`None`) or the empty string: the source guards the assignment
with Python `or`, so an empty normalized type (e.g. from declared type
`"Aux"`) counts as unset, which is the one exception to the original
claim (see `declaredType_overwrite_C2_cex`).  (c) An aux-root leaf
overwrites the type unconditionally (the authoritative source), so it
wins over a container-root leaf that arrived earlier. -/
theorem declaredType_tiebreak_C2 :
    (∀ (h : Hierarchy) (l : Leaf) (c t : List Char) (h' : Hierarchy),
      classifyName l.name = .contRoot c →
      (getRec h c).type = some t → t ≠ [] →
      processLeaf h l = some h' →
      (getRec h' c).type = some t) ∧
    (∀ (h : Hierarchy) (l : Leaf) (c g2 : List Char) (h' : Hierarchy),
      classifyName l.name = .contRoot c →
      ((getRec h c).type = none ∨ (getRec h c).type = some []) →
      normalizeType l.type = some g2 →
      processLeaf h l = some h' →
      (getRec h' c).type = some g2) ∧
    (∀ (h : Hierarchy) (l : Leaf) (c g2 : List Char) (h' : Hierarchy),
      classifyName l.name = .auxRoot c →
      normalizeType l.type = some g2 →
      processLeaf h l = some h' →
      (getRec h' c).type = some g2) := by
  refine ⟨?_, ?_, ?_⟩
  · intro h l c t h' hcl htype hne hproc
    cases hn : normalizeType l.type with
    | none =>
      simp only [processLeaf, hn] at hproc
      exact Option.noConfusion hproc
    | some g2 =>
      simp only [processLeaf, hn, hcl] at hproc
      injection hproc with hproc
      subst hproc
      rw [getRec_setRec_same]
      show pyOr (getRec h c).type g2 = some t
      rw [htype]
      simp [pyOr, hne]
  · intro h l c g2 h' hcl htype hn hproc
    simp only [processLeaf, hn, hcl] at hproc
    injection hproc with hproc
    subst hproc
    rw [getRec_setRec_same]
    show pyOr (getRec h c).type g2 = some g2
    cases htype with
    | inl hnone => rw [hnone]; rfl
    | inr hempty => rw [hempty]; simp [pyOr]
  · intro h l c g2 h' hcl hn hproc
    simp only [processLeaf, hn, hcl] at hproc
    injection hproc with hproc
    subst hproc
    rw [getRec_setRec_same]

/-- A leaf whose declared type is the literal string `"Aux"`: the
normalization deletes the substring `Aux`, leaving the empty string. -/
def auxLeafEmptyType : Leaf :=
  { name := "FooAux.".data, type := "Aux".data, totbytes := 0, filebytes := 0 }

/-- A bare container-root leaf for the same container. -/
def rootLeafInt : Leaf :=
  { name := "Foo".data, type := "Int_t".data, totbytes := 0, filebytes := 0 }

/-- Claim C2, counterexample to the original wording.  The aux-root leaf
`FooAux.` of declared type `"Aux"` sets the container's `type` to the
empty string; the bare container-root leaf `Foo` processed afterwards
CHANGES it to `"Int_t"`, because the Python `or` of the source treats
the empty string like `None`.  So a type set by an aux-root leaf is not
always kept. -/
theorem declaredType_overwrite_C2_cex :
    (inspect_tree [auxLeafEmptyType]).map (fun h => (getRec h "Foo".data).type)
      = some (some []) ∧
    (inspect_tree [auxLeafEmptyType, rootLeafInt]).map (fun h => (getRec h "Foo".data).type)
      = some (some "Int_t".data) := by
  constructor
  · decide
  · decide

/-- Claim C2 witness: part (a) of the amended statement applied to a
container whose type was already set to the nonempty string
`"xAOD::JetContainer"`; the container-root leaf `Foo` leaves it
unchanged. -/
theorem declaredType_tiebreak_C2_witness :
    (getRec [("Foo".data,
        { defaultRecord with type := some "xAOD::JetContainer".data,
                             rootname := some "Foo".data })] "Foo".data).type
      = some "xAOD::JetContainer".data :=
  declaredType_tiebreak_C2.1
    [("Foo".data, { defaultRecord with type := some "xAOD::JetContainer".data })]
    rootLeafInt "Foo".data "xAOD::JetContainer".data
    [("Foo".data,
      { defaultRecord with
          type := some "xAOD::JetContainer".data, rootname := some "Foo".data })]
    (by decide) (by decide) (by decide) (by decide)

/-! ## The b-tagging reclassification (claim C3) -/

/-- Modelled from the spec: claim C3 reads the reported type of a
b-tagging attribute as "the inner type extracted from one level of
angle-bracket nesting in the PRE-normalization declared type" followed
by a literal `" *"`, falling back to the normalized type.  Declared here
only for comparison with `btaggingReportedType`, which the source
computes from the already-normalized type. -/
def specBtaggingReportedType (declared normalized : List Char) : List Char :=
  match grabInner declared with
  | some inner => inner ++ " *".data
  | none => normalized

/-- The spec's own b-tagging example leaf. -/
def btagLinkLeaf : Leaf :=
  { name := "FooAuxDyn.btaggingLink".data,
    type := "vector<ElementLink<DataVector<xAOD::BTagging_v1> > >".data,
    totbytes := 0, filebytes := 0 }

/-- Claim C3, counterexample to the original wording.  At the claim's own
example leaf the code reports type `"xAOD::BTagging *"` — the inner type
of the NORMALIZED declared type (version suffix already stripped) — while
the claim's general rule (extraction from the pre-normalization declared
type) yields `"xAOD::BTagging_v1 *"`.  The two differ, so the general
rule, as stated, is false on this input. -/
theorem btagging_inner_C3_cex :
    processLeaf [] btagLinkLeaf = some [("Foo".data,
      { defaultRecord with prop :=
          [{ name := "btagging".data, type := "xAOD::BTagging *".data,
             rootname := "FooAuxDyn.btaggingLink".data, totbytes := 0, filebytes := 0 }] })] ∧
    specBtaggingReportedType btagLinkLeaf.type
        ((normalizeType btagLinkLeaf.type).getD []) = "xAOD::BTagging_v1 *".data ∧
    ("xAOD::BTagging *".data : List Char) ≠ "xAOD::BTagging_v1 *".data := by
  refine ⟨?_, ?_, ?_⟩
  · decide
  · decide
  · decide

/-- Claim C3, amended: the inner type is extracted from one level of
angle-bracket nesting in the NORMALIZED declared type.  Every attribute
leaf whose field name contains the case-insensitive substring
`btagging` is filed under `prop` (not `attr`), with `Link` stripped from
the name and `btaggingReportedType` applied to the normalized type; in
particular the spec's example leaf yields the property
`btagging : xAOD::BTagging *`. -/
theorem btagging_reclass_C3 :
    (∀ (h : Hierarchy) (l : Leaf) (c f g2 : List Char),
      classifyName l.name = .attr c f →
      containsSub "btagging".data (toLowerL f) = true →
      normalizeType l.type = some g2 →
      processLeaf h l = some (setRec h c
        { getRec h c with prop := (getRec h c).prop ++
            [{ name := removeLink f, type := btaggingReportedType g2,
               rootname := l.name, totbytes := l.totbytes, filebytes := l.filebytes }] })) ∧
    processLeaf [] btagLinkLeaf = some [("Foo".data,
      { defaultRecord with prop :=
          [{ name := "btagging".data, type := "xAOD::BTagging *".data,
             rootname := "FooAuxDyn.btaggingLink".data, totbytes := 0, filebytes := 0 }] })] := by
  constructor
  · intro h l c f g2 hcl hbt hnorm
    simp only [processLeaf, hnorm, hcl, hbt, if_true]
  · decide

/-- Claim C3 witness: the general reclassification rule applied at the
spec's example leaf. -/
theorem btagging_reclass_C3_witness :
    processLeaf [] btagLinkLeaf = some (setRec [] "Foo".data
      { getRec [] "Foo".data with prop := (getRec [] "Foo".data).prop ++
          [{ name := removeLink "btaggingLink".data,
             type := btaggingReportedType "ElementLink<DataVector<xAOD::BTagging> >".data,
             rootname := btagLinkLeaf.name, totbytes := btagLinkLeaf.totbytes,
             filebytes := btagLinkLeaf.filebytes }] }) :=
  btagging_reclass_C3.1 [] btagLinkLeaf "Foo".data "btaggingLink".data
    "ElementLink<DataVector<xAOD::BTagging> >".data (by decide) (by decide) (by decide)

/-! ## The degenerate b-tagging leaf (claim C4) -/

/-- Claim C4.  A b-tagging-named attribute leaf whose (normalized) type
contains no angle-bracket pair does not fail: the inner-type extraction
falls back silently to the normalized type, `Link` is still stripped
from the name, and the field is filed under `prop`.  In particular the
degenerate leaf `FooAuxDyn.btaggingLink_` of declared type `Int_t`
yields the property `btagging_ : Int_t` with no pointer marker. -/
theorem btagging_degenerate_C4 :
    (∀ (h : Hierarchy) (l : Leaf) (c f g2 : List Char),
      classifyName l.name = .attr c f →
      containsSub "btagging".data (toLowerL f) = true →
      normalizeType l.type = some g2 →
      grabInner g2 = none →
      processLeaf h l = some (setRec h c
        { getRec h c with prop := (getRec h c).prop ++
            [{ name := removeLink f, type := g2, rootname := l.name,
               totbytes := l.totbytes, filebytes := l.filebytes }] })) ∧
    processLeaf [] { name := "FooAuxDyn.btaggingLink_".data, type := "Int_t".data,
                     totbytes := 3, filebytes := 4 }
      = some [("Foo".data,
          { defaultRecord with prop :=
              [{ name := "btagging_".data, type := "Int_t".data,
                 rootname := "FooAuxDyn.btaggingLink_".data,
                 totbytes := 3, filebytes := 4 }] })] := by
  constructor
  · intro h l c f g2 hcl hbt hnorm hgrab
    simp only [processLeaf, hnorm, hcl, hbt, btaggingReportedType, hgrab, if_true]
  · decide

/-- Claim C4 witness: the general fallback statement applied at the
degenerate leaf. -/
theorem btagging_degenerate_C4_witness :
    processLeaf [] { name := "FooAuxDyn.btaggingLink_".data, type := "Int_t".data,
                     totbytes := 3, filebytes := 4 }
      = some (setRec [] "Foo".data
          { getRec [] "Foo".data with prop := (getRec [] "Foo".data).prop ++
              [{ name := removeLink "btaggingLink_".data, type := "Int_t".data,
                 rootname := "FooAuxDyn.btaggingLink_".data,
                 totbytes := 3, filebytes := 4 }] }) :=
  btagging_degenerate_C4.1 [] _ "Foo".data "btaggingLink_".data "Int_t".data
    (by decide) (by decide) (by decide) (by decide)

/-! ## The size aggregator (claims C7 and C10) -/

lemma lookupRec_update_sizes (h : Hierarchy) (k : List Char) :
    lookupRec (update_sizes h) k = (lookupRec h k).map update_record := by
  induction h with
  | nil => rfl
  | cons kv t ih =>
    obtain ⟨k', v⟩ := kv
    by_cases hk : k' = k
    · subst hk; simp [update_sizes, lookupRec]
    · simpa [update_sizes, lookupRec, hk] using ih

/-- Claim C7.  `update_sizes` adds to each container's two byte
accumulators the sums of the corresponding byte counts over the
currently-retained `prop` and `attr` fields; in particular a container
with properties of on-disk sizes 10 and 20 and its own on-disk
accumulator at 5 totals 35 on disk after aggregation. -/
theorem update_sizes_C7 :
    (∀ (h : Hierarchy) (k : List Char) (r : Record), lookupRec h k = some r →
      lookupRec (update_sizes h) k = some
        { r with
            totbytes := r.totbytes + (r.prop ++ r.attr).foldl (fun a d => a + d.totbytes) 0,
            filebytes := r.filebytes + (r.prop ++ r.attr).foldl (fun a d => a + d.filebytes) 0 }) ∧
    (update_record { defaultRecord with
        prop := [{ name := "a".data, type := "T".data, rootname := "ra".data,
                   totbytes := 1, filebytes := 10 },
                 { name := "b".data, type := "T".data, rootname := "rb".data,
                   totbytes := 2, filebytes := 20 }],
        filebytes := 5 }).filebytes = 35 := by
  constructor
  · intro h k r hr
    rw [lookupRec_update_sizes, hr]
    rfl
  · decide

/-- Claim C7 witness: the aggregation equation applied at a concrete
one-container hierarchy. -/
theorem update_sizes_C7_witness :
    lookupRec (update_sizes [("C".data,
      { defaultRecord with
          prop := [{ name := "a".data, type := "T".data, rootname := "ra".data,
                     totbytes := 1, filebytes := 10 },
                   { name := "b".data, type := "T".data, rootname := "rb".data,
                     totbytes := 2, filebytes := 20 }],
          filebytes := 5 })]) "C".data
      = some { defaultRecord with
          prop := [{ name := "a".data, type := "T".data, rootname := "ra".data,
                     totbytes := 1, filebytes := 10 },
                   { name := "b".data, type := "T".data, rootname := "rb".data,
                     totbytes := 2, filebytes := 20 }],
          totbytes := 3, filebytes := 35 } := by
  have happ := update_sizes_C7.1 [("C".data,
      { defaultRecord with
          prop := [{ name := "a".data, type := "T".data, rootname := "ra".data,
                     totbytes := 1, filebytes := 10 },
                   { name := "b".data, type := "T".data, rootname := "rb".data,
                     totbytes := 2, filebytes := 20 }],
          filebytes := 5 })] "C".data
      { defaultRecord with
          prop := [{ name := "a".data, type := "T".data, rootname := "ra".data,
                     totbytes := 1, filebytes := 10 },
                   { name := "b".data, type := "T".data, rootname := "rb".data,
                     totbytes := 2, filebytes := 20 }],
          filebytes := 5 } (by decide)
  exact happ

/-- Claim C10.  `update_sizes` is a frame: it adds no container, removes
none, keeps every container name in place, and inside every record
changes nothing but the two container-level byte accumulators — the
`prop` and `attr` lists (and with them every per-field byte count), the
declared type, the aux flag and the root leaf name are returned exactly
as they were. -/
theorem update_sizes_frame_C10 (h : Hierarchy) :
    List.Forall₂ (fun a b => a.1 = b.1 ∧ b.2.prop = a.2.prop ∧ b.2.attr = a.2.attr ∧
      b.2.type = a.2.type ∧ b.2.has_aux = a.2.has_aux ∧ b.2.rootname = a.2.rootname)
      h (update_sizes h) := by
  induction h with
  | nil => exact List.Forall₂.nil
  | cons kv t ih =>
    exact List.Forall₂.cons ⟨rfl, rfl, rfl, rfl, rfl, rfl⟩ ih

/-! ## The filter (claims C5 and C6) -/

lemma auxCond_of_imp (b aux : Bool) (h : b = true → aux = true) : (!b || aux) = true := by
  cases b
  · rfl
  · simp [h rfl]

lemma imp_of_auxCond (b aux : Bool) (h : (!b || aux) = true) : b = true → aux = true := by
  intro hb
  subst hb
  simpa using h

lemma projRecord_type (args : Args) (v : Record) : (projRecord args v).type = v.type := rfl

lemma projRecord_hasaux (args : Args) (v : Record) :
    (projRecord args v).has_aux = v.has_aux := rfl

lemma projRecord_idem (args : Args) (v : Record) :
    projRecord args (projRecord args v) = projRecord args v := by
  unfold projRecord
  by_cases hp : args.list_properties <;> by_cases ha : args.list_attributes <;> simp [hp, ha]

lemma filterGo_total (pn pt : List Token) (args : Args) :
    ∀ h : Hierarchy, (∀ kv, kv ∈ h → kv.2.type ≠ none) →
    ∃ h', filterGo pn pt args h = some h' ∧
      ∀ kv : List Char × Record, kv ∈ h' ↔ ∃ r : Record, (kv.1, r) ∈ h ∧
        tokMatch pn kv.1 = true ∧
        (∃ t, r.type = some t ∧ tokMatch pt t = true) ∧
        (args.has_aux = true → r.has_aux = true) ∧
        kv.2 = projRecord args r := by
  intro h
  induction h with
  | nil =>
    intro _
    exact ⟨[], rfl, by simp⟩
  | cons kv0 t ih =>
    intro ht
    obtain ⟨k, v⟩ := kv0
    have hv : v.type ≠ none := ht (k, v) (List.mem_cons_self _ _)
    obtain ⟨ty, hty⟩ := Option.ne_none_iff_exists'.mp hv
    obtain ⟨h', hfg, hiff⟩ := ih (fun kv hkv => ht kv (List.mem_cons_of_mem _ hkv))
    by_cases hn : tokMatch pn k = true
    · by_cases hc : (tokMatch pt ty && (!args.has_aux || v.has_aux)) = true
      · refine ⟨(k, projRecord args v) :: h', ?_, ?_⟩
        · simp [filterGo, hn, hty, hc, hfg]
        · intro kv
          constructor
          · intro hkv
            rcases List.mem_cons.mp hkv with heq | hmem
            · subst heq
              obtain ⟨hmt, hmx⟩ : tokMatch pt ty = true ∧ (!args.has_aux || v.has_aux) = true :=
                by simpa using hc
              exact ⟨v, List.mem_cons_self _ _, hn, ⟨ty, hty, hmt⟩,
                imp_of_auxCond _ _ hmx, rfl⟩
            · obtain ⟨r, hrmem, hrest⟩ := (hiff kv).mp hmem
              exact ⟨r, List.mem_cons_of_mem _ hrmem, hrest⟩
          · rintro ⟨r, hrmem, hmn, ⟨tt, htt, hmt⟩, haux, hkv2⟩
            rcases List.mem_cons.mp hrmem with heq | hmem'
            · have hk1 : kv.1 = k := congrArg Prod.fst heq
              have hr : r = v := congrArg Prod.snd heq
              subst hr
              apply List.mem_cons.mpr
              left
              rw [Prod.ext_iff]
              exact ⟨hk1, hkv2⟩
            · exact List.mem_cons_of_mem _ ((hiff kv).mpr ⟨r, hmem', hmn, ⟨tt, htt, hmt⟩, haux, hkv2⟩)
      · refine ⟨h', ?_, ?_⟩
        · simp [filterGo, hn, hty, hc, hfg]
        · intro kv
          rw [hiff kv]
          constructor
          · rintro ⟨r, hrmem, hrest⟩
            exact ⟨r, List.mem_cons_of_mem _ hrmem, hrest⟩
          · rintro ⟨r, hrmem, hmn, ⟨tt, htt, hmt⟩, haux, hkv2⟩
            rcases List.mem_cons.mp hrmem with heq | hmem'
            · exfalso
              have hr : r = v := congrArg Prod.snd heq
              subst hr
              rw [hty] at htt
              injection htt with htt
              subst htt
              exact hc (by simp [hmt, auxCond_of_imp _ _ haux])
            · exact ⟨r, hmem', hmn, ⟨tt, htt, hmt⟩, haux, hkv2⟩
    · refine ⟨h', ?_, ?_⟩
      · simp [filterGo, hn, hfg]
      · intro kv
        rw [hiff kv]
        constructor
        · rintro ⟨r, hrmem, hrest⟩
          exact ⟨r, List.mem_cons_of_mem _ hrmem, hrest⟩
        · rintro ⟨r, hrmem, hmn, hrest⟩
          rcases List.mem_cons.mp hrmem with heq | hmem'
          · exfalso
            have hk1 : kv.1 = k := congrArg Prod.fst heq
            rw [hk1] at hmn
            exact hn hmn
          · exact ⟨r, hmem', hmn, hrest⟩

/-- Claim C5, amended.  Provided the two globs compile (`fnmatch`
patterns with well-formed character classes) and every container of the
input hierarchy has its declared type set — the code calls
`p_container_type.match(v['type'])`, which raises a `TypeError` on a
`None` type, see `filter_C5_cex` — the filter returns a new hierarchy
whose containers are exactly those whose name matches the
container-name glob, whose declared type matches the container-type
glob, and which have `has_aux` whenever `--has_aux` is set; every
retained container keeps its type, aux flag, root leaf name and both
byte accumulators unchanged (only `prop`/`attr` are projected by the
verbosity flags). -/
theorem filter_exact_C5 (h : Hierarchy) (args : Args) (pn pt : List Token)
    (hpn : tokenizeGlob args.container_name_regex = some pn)
    (hpt : tokenizeGlob args.container_type_regex = some pt)
    (ht : ∀ kv, kv ∈ h → kv.2.type ≠ none) :
    ∃ h', filter_xAOD_objects h args = some h' ∧
      ∀ kv : List Char × Record, kv ∈ h' ↔ ∃ r : Record, (kv.1, r) ∈ h ∧
        tokMatch pn kv.1 = true ∧
        (∃ t, r.type = some t ∧ tokMatch pt t = true) ∧
        (args.has_aux = true → r.has_aux = true) ∧
        kv.2.type = r.type ∧ kv.2.has_aux = r.has_aux ∧ kv.2.rootname = r.rootname ∧
        kv.2.totbytes = r.totbytes ∧ kv.2.filebytes = r.filebytes ∧
        kv.2 = projRecord args r := by
  obtain ⟨h', hfg, hiff⟩ := filterGo_total pn pt args h ht
  refine ⟨h', ?_, ?_⟩
  · unfold filter_xAOD_objects
    rw [hpn, hpt]
    exact hfg
  · intro kv
    rw [hiff kv]
    constructor
    · rintro ⟨r, hrmem, hmn, hmt, haux, hkv2⟩
      refine ⟨r, hrmem, hmn, hmt, haux, ?_, ?_, ?_, ?_, ?_, hkv2⟩ <;> rw [hkv2] <;> rfl
    · rintro ⟨r, hrmem, hmn, hmt, haux, _, _, _, _, _, hkv2⟩
      exact ⟨r, hrmem, hmn, hmt, haux, hkv2⟩

/-- Claim C5, counterexample to the original wording.  The hierarchy
builder can deliver containers whose declared type was never set (here:
the single leaf `FooAux.pt` creates container `Foo` with `type = None`);
on such a hierarchy the filter does not return a hierarchy at all, even
under the default match-all configuration — `.match(None)` raises a
`TypeError`.  So "for every Hierarchy produced by the Hierarchy Builder
... Filter returns a new Hierarchy ..." fails. -/
theorem filter_C5_cex :
    inspect_tree [{ name := "FooAux.pt".data, type := "vector<float>".data,
                    totbytes := 1, filebytes := 2 }]
      = some [("Foo".data, { defaultRecord with prop :=
          [{ name := "pt".data, type := "float".data, rootname := "FooAux.pt".data,
             totbytes := 1, filebytes := 2 }] })] ∧
    filter_xAOD_objects
      [("Foo".data, { defaultRecord with prop :=
          [{ name := "pt".data, type := "float".data, rootname := "FooAux.pt".data,
             totbytes := 1, filebytes := 2 }] })]
      ⟨"*".data, "*".data, false, true, true⟩ = none := by
  constructor
  · decide
  · decide

/-- The default match-all filter configuration. -/
def demoArgs : Args := ⟨"*".data, "*".data, false, false, false⟩

/-- Claim C5 witness: the amended characterization applied to a concrete
one-container hierarchy under the default match-all configuration. -/
theorem filter_exact_C5_witness :
    ∃ h', filter_xAOD_objects [("Foo".data, { defaultRecord with type := some "Int_t".data })]
        demoArgs = some h' ∧
      ∀ kv : List Char × Record, kv ∈ h' ↔ ∃ r : Record,
        (kv.1, r) ∈ [("Foo".data, ({ defaultRecord with type := some "Int_t".data } : Record))] ∧
        tokMatch [Token.star] kv.1 = true ∧
        (∃ t, r.type = some t ∧ tokMatch [Token.star] t = true) ∧
        (demoArgs.has_aux = true → r.has_aux = true) ∧
        kv.2.type = r.type ∧ kv.2.has_aux = r.has_aux ∧ kv.2.rootname = r.rootname ∧
        kv.2.totbytes = r.totbytes ∧ kv.2.filebytes = r.filebytes ∧
        kv.2 = projRecord demoArgs r :=
  filter_exact_C5 [("Foo".data, { defaultRecord with type := some "Int_t".data })]
    demoArgs [Token.star] [Token.star] (by decide) (by decide)
    (by
      intro kv hkv
      rw [List.mem_singleton] at hkv
      subst hkv
      decide)

lemma filterGo_idem (pn pt : List Token) (args : Args) :
    ∀ (h h' : Hierarchy), filterGo pn pt args h = some h' →
      filterGo pn pt args h' = some h' := by
  intro h
  induction h with
  | nil =>
    intro h' hfg
    simp only [filterGo] at hfg
    injection hfg with hfg
    subst hfg
    rfl
  | cons kv0 t ih =>
    intro h' hfg
    obtain ⟨k, v⟩ := kv0
    by_cases hn : tokMatch pn k = true
    · cases hty : v.type with
      | none => simp [filterGo, hn, hty] at hfg
      | some ty =>
        by_cases hc : (tokMatch pt ty && (!args.has_aux || v.has_aux)) = true
        · have hstep : filterGo pn pt args ((k, v) :: t)
              = Option.map (fun rest => (k, projRecord args v) :: rest)
                  (filterGo pn pt args t) := by
            simp [filterGo, hn, hty, hc]
          rw [hstep] at hfg
          obtain ⟨rest, hrest, hcons⟩ := Option.map_eq_some'.mp hfg
          subst hcons
          have hrec : filterGo pn pt args rest = some rest := ih rest hrest
          have hstep2 : filterGo pn pt args ((k, projRecord args v) :: rest)
              = Option.map (fun r2 => (k, projRecord args (projRecord args v)) :: r2)
                  (filterGo pn pt args rest) := by
            simp [filterGo, hn, projRecord_type, projRecord_hasaux, hty, hc]
          rw [hstep2, hrec, projRecord_idem]
          rfl
        · have hstep : filterGo pn pt args ((k, v) :: t) = filterGo pn pt args t := by
            simp [filterGo, hn, hty, hc]
          rw [hstep] at hfg
          exact ih h' hfg
    · have hstep : filterGo pn pt args ((k, v) :: t) = filterGo pn pt args t := by
        simp [filterGo, hn]
      rw [hstep] at hfg
      exact ih h' hfg

/-- Claim C6.  The filter is idempotent: whenever it succeeds, running it
again with the same configuration on its own output returns that output
unchanged. -/
theorem filter_idempotent_C6 (h h' : Hierarchy) (args : Args)
    (hf : filter_xAOD_objects h args = some h') :
    filter_xAOD_objects h' args = some h' := by
  unfold filter_xAOD_objects at hf ⊢
  cases hpn : tokenizeGlob args.container_name_regex with
  | none => rw [hpn] at hf; exact Option.noConfusion hf
  | some pn =>
    rw [hpn] at hf
    cases hpt : tokenizeGlob args.container_type_regex with
    | none => rw [hpt] at hf; exact Option.noConfusion hf
    | some pt =>
      rw [hpt] at hf
      exact filterGo_idem pn pt args h h' hf

/-- Claim C6 witness: idempotence applied to a concrete run (one matching
and one non-matching container, properties projected away). -/
theorem filter_idempotent_C6_witness :
    filter_xAOD_objects [("Foo".data, { defaultRecord with type := some "Int_t".data })]
      ⟨"F*".data, "*".data, false, false, false⟩
      = some [("Foo".data, { defaultRecord with type := some "Int_t".data })] :=
  filter_idempotent_C6
    [("Foo".data, { defaultRecord with type := some "Int_t".data }),
     ("Bar".data, { defaultRecord with type := some "Int_t".data })]
    [("Foo".data, { defaultRecord with type := some "Int_t".data })]
    ⟨"F*".data, "*".data, false, false, false⟩
    (by decide)

/-! ## Pretty-report ordering (claim C8) -/

instance : IsTrans Keyed contRel :=
  ⟨by
    intro a b c hab hbc
    unfold contRel pairLe at hab hbc ⊢
    rcases hab with h1 | ⟨e1, l1⟩
    · rcases hbc with h2 | ⟨e2, l2⟩
      · exact Or.inl (lt_trans h1 h2)
      · exact Or.inl (e2 ▸ h1)
    · rcases hbc with h2 | ⟨e2, l2⟩
      · refine Or.inl ?_
        rw [e1]
        exact h2
      · exact Or.inr ⟨e1.trans e2, le_trans l1 l2⟩⟩

instance : IsTotal Keyed contRel :=
  ⟨by
    intro a b
    unfold contRel pairLe
    rcases lt_trichotomy a.key.1 b.key.1 with h | h | h
    · exact Or.inl (Or.inl h)
    · rcases le_total a.key.2 b.key.2 with h2 | h2
      · exact Or.inl (Or.inr ⟨h, h2⟩)
      · exact Or.inr (Or.inr ⟨h.symm, h2⟩)
    · exact Or.inr (Or.inl h)⟩

instance : IsTrans Field fieldRel := ⟨fun _ _ _ h1 h2 => le_trans h1 h2⟩

instance : IsTotal Field fieldRel := ⟨fun _ _ => le_total _ _⟩

lemma keyedOf_mem (h : Hierarchy) (ks : List Keyed) (hk : keyedOf h = some ks) :
    ∀ x ∈ ks, x.key = (toLowerL x.ktype, toLowerL x.kname) := by
  induction h generalizing ks with
  | nil =>
    unfold keyedOf at hk
    injection hk with hk
    subst hk
    intro x hx
    exact absurd hx (List.not_mem_nil x)
  | cons kv t ih =>
    obtain ⟨k, v⟩ := kv
    unfold keyedOf at hk
    cases hty : v.type with
    | none =>
      rw [hty] at hk
      exact Option.noConfusion hk
    | some ty =>
      rw [hty] at hk
      obtain ⟨rest, hrest, hcons⟩ := Option.map_eq_some'.mp hk
      subst hcons
      intro x hx
      rcases List.mem_cons.mp hx with heq | hmem
      · subst heq; rfl
      · exact ih rest hrest x hmem

/-- Claim C8.  Whenever the pretty emitter succeeds, the containers come
out sorted ascending by the pair (declared type lowercased, container
name lowercased) — so a container of declared type `"B"` is emitted
after every container of type `"A"` regardless of name, and within one
type the names sort case-insensitively — and inside each container the
properties and the attributes (when their flags admit them) are each
emitted sorted ascending by field name lowercased. -/
theorem dump_pretty_sorted_C8 (h : Hierarchy) (args : Args) (out : List PrettyItem)
    (hd : dump_pretty h args = some out) :
    List.Pairwise (fun a b => pairLe (toLowerL a.ptype, toLowerL a.pname)
        (toLowerL b.ptype, toLowerL b.pname)) out ∧
    ∀ it ∈ out,
      List.Pairwise fieldRel it.pprops ∧ List.Pairwise fieldRel it.pattrs := by
  unfold dump_pretty at hd
  cases hkk : keyedOf h with
  | none =>
    rw [hkk] at hd
    exact Option.noConfusion hd
  | some keyed =>
    rw [hkk] at hd
    injection hd with hd
    subst hd
    constructor
    · have hsorted : List.Sorted contRel (keyed.insertionSort contRel) :=
        List.sorted_insertionSort contRel keyed
      have hmemkey : ∀ x ∈ keyed.insertionSort contRel,
          x.key = (toLowerL x.ktype, toLowerL x.kname) := by
        intro x hx
        exact keyedOf_mem h keyed hkk x
          ((List.perm_insertionSort contRel keyed).mem_iff.mp hx)
      rw [List.pairwise_map]
      refine List.Pairwise.imp_of_mem ?_ hsorted
      intro a b ha hb hr
      have hka := hmemkey a ha
      have hkb := hmemkey b hb
      unfold contRel at hr
      rw [hka, hkb] at hr
      exact hr
    · intro it hit
      rw [List.mem_map] at hit
      obtain ⟨x, hx, hgx⟩ := hit
      subst hgx
      constructor
      · by_cases hp : args.list_properties
        · simp only [hp, if_true]
          exact List.sorted_insertionSort fieldRel _
        · simp only [hp, if_false]
          exact List.Pairwise.nil
      · by_cases ha : args.list_attributes
        · simp only [ha, if_true]
          exact List.sorted_insertionSort fieldRel _
        · simp only [ha, if_false]
          exact List.Pairwise.nil

/-- A two-container hierarchy (types `"B"` and `"A"`, mixed-case names
and field names) used to exercise the pretty-report ordering. -/
def prettyDemoH : Hierarchy :=
  [("Zed".data,
    { defaultRecord with
        type := some "B".data,
        prop := [{ name := "Pt".data, type := "float".data, rootname := "ZedAux.Pt".data,
                   totbytes := 1, filebytes := 2 },
                 { name := "eta".data, type := "float".data, rootname := "ZedAux.eta".data,
                   totbytes := 3, filebytes := 4 }],
        attr := [{ name := "Zng".data, type := "int".data, rootname := "r1".data,
                   totbytes := 0, filebytes := 0 },
                 { name := "ang".data, type := "int".data, rootname := "r2".data,
                   totbytes := 0, filebytes := 0 }] }),
   ("alpha".data, { defaultRecord with type := some "A".data })]

/-- The emission order of `dump_pretty` on `prettyDemoH` with both field
flags on: type `"A"` first, and the fields of `Zed` re-ordered
case-insensitively. -/
def prettyDemoOut : List PrettyItem :=
  [{ pname := "alpha".data, ptype := "A".data, pprops := [], pattrs := [] },
   { pname := "Zed".data, ptype := "B".data,
     pprops := [{ name := "eta".data, type := "float".data, rootname := "ZedAux.eta".data,
                  totbytes := 3, filebytes := 4 },
                { name := "Pt".data, type := "float".data, rootname := "ZedAux.Pt".data,
                  totbytes := 1, filebytes := 2 }],
     pattrs := [{ name := "ang".data, type := "int".data, rootname := "r2".data,
                  totbytes := 0, filebytes := 0 },
                { name := "Zng".data, type := "int".data, rootname := "r1".data,
                  totbytes := 0, filebytes := 0 }] }]

/-- Claim C8 witness: the ordering statement applied to the concrete
emission of `prettyDemoH`. -/
theorem dump_pretty_sorted_C8_witness :
    List.Pairwise (fun a b => pairLe (toLowerL a.ptype, toLowerL a.pname)
        (toLowerL b.ptype, toLowerL b.pname)) prettyDemoOut ∧
    ∀ it ∈ prettyDemoOut,
      List.Pairwise fieldRel it.pprops ∧ List.Pairwise fieldRel it.pattrs :=
  dump_pretty_sorted_C8 prettyDemoH ⟨"*".data, "*".data, false, true, true⟩ prettyDemoOut
    (by decide)

end DumpSG
